import Mathlib

/-!
Verification of the theia front-end modules: the quick-open prefix registry
and dispatcher, the markers tree refresh, the Node.js debug-adapter
configuration resolution, the preferences context-menu factory, the
breakpoints widget and the editor decorators.

Strings are embedded as lists of characters (`Str`); JavaScript truthiness
of optional strings and numbers is made explicit (`truthyStr`, `truthyInt`).
-/

namespace Theia

abbrev Str := List Char

/-- Truthiness of a JS value that is either a string or undefined:
undefined and the empty string are falsy, every other string is truthy. -/
def truthyStr (s : Option Str) : Bool :=
  match s with
  | none => false
  | some s => !s.isEmpty

/-- Truthiness of a JS value that is either a number or undefined:
undefined and 0 are falsy, every other number is truthy. -/
def truthyInt (n : Option Int) : Bool :=
  match n with
  | none => false
  | some n => decide (n ≠ 0)

/-! ## Quick open: `QuickOpenHandlerRegistry` and `QuickOpenService`
from `packages/core/src/browser/quick-open/quick-open-service.ts`,
and the older revision of the same file (`src/unnamed/part_000`). -/

/-- A quick-open handler: its prefix (field `pfx` embeds the source's
prefix field) and a stand-in for its model object identity. -/
structure QuickOpenHandler where
  pfx : Str
  modelId : Nat
deriving DecidableEq, Repr

/-- The registry state: the insertion-ordered `Map` from prefixes to
handlers (each entry's key is its handler's prefix), and the optional
default handler. -/
structure QuickOpenHandlerRegistry where
  handlers : List QuickOpenHandler
  defaultHandler : Option QuickOpenHandler
deriving DecidableEq, Repr

/-- `this.handlers.has(prefix)`. -/
def hasHandler (reg : QuickOpenHandlerRegistry) (p : Str) : Bool :=
  reg.handlers.any (fun h => h.pfx == p)

/-- `registerHandler`: if a handler with this prefix is registered already,
warn and return `Disposable.NULL` (flag `false`), leaving the map unchanged;
otherwise insert the handler and return a real disposable (flag `true`). -/
def registerHandler (reg : QuickOpenHandlerRegistry) (h : QuickOpenHandler) :
    QuickOpenHandlerRegistry × Bool :=
  if hasHandler reg h.pfx then
    (reg, false)
  else
    ({ reg with handlers := reg.handlers ++ [h] }, true)

/-- `registerDefaultHandler`: sets the default handler; the handler map is
untouched. -/
def registerDefaultHandler (reg : QuickOpenHandlerRegistry) (h : QuickOpenHandler) :
    QuickOpenHandlerRegistry :=
  { reg with defaultHandler := some h }

/-- The `dispose` of the disposable returned by `registerHandler`:
`this.handlers.delete(handler.prefix)`. -/
def disposeHandlerRegistration (reg : QuickOpenHandlerRegistry) (p : Str) :
    QuickOpenHandlerRegistry :=
  { reg with handlers := reg.handlers.filter (fun h => !(h.pfx == p)) }

/-- `getDefaultHandler`. -/
def getDefaultHandler (reg : QuickOpenHandlerRegistry) : Option QuickOpenHandler :=
  reg.defaultHandler

/-- `getHandlerForText` (quick-open-service.ts): the first handler, in map
insertion order, whose prefix starts the given text. -/
def getHandlerForText (reg : QuickOpenHandlerRegistry) (text : Str) :
    Option QuickOpenHandler :=
  reg.handlers.find? (fun h => h.pfx.isPrefixOf text)

/-- `getHandlerByText` (the older revision, `src/unnamed/part_000`): the
first handler, in map insertion order, whose prefix starts the given text. -/
def getHandlerByText (reg : QuickOpenHandlerRegistry) (text : Str) :
    Option QuickOpenHandler :=
  reg.handlers.find? (fun h => h.pfx.isPrefixOf text)

/-- The observable outcome of `QuickOpenService`'s `model.onType`. -/
inductive OnTypeAction where
  /-- The prefix changed; the widget is reopened via `this.show(lookFor)`. -/
  | reshow (lookFor : Str)
  /-- The text after the handler's prefix is sent to that handler's model. -/
  | forward (handler : QuickOpenHandler) (searchValue : Str)
  /-- The text is sent to the default handler's model. -/
  | forwardDefault (handler : Option QuickOpenHandler) (searchValue : Str)
deriving DecidableEq, Repr

/-- `QuickOpenService`'s `model.onType` (quick-open-service.ts): the
current prefix is `none` while the field is still uninitialized. Returns
the action taken and the new current prefix. -/
def onType (reg : QuickOpenHandlerRegistry) (currentPrefix : Option Str)
    (lookFor : Str) : OnTypeAction × Option Str :=
  let handler := getHandlerForText reg lookFor
  let handlerPrefix : Str := match handler with
    | some h => h.pfx
    | none => []
  if some handlerPrefix ≠ currentPrefix then
    (.reshow lookFor, some handlerPrefix)
  else
    match handler with
    | some h => (.forward h (lookFor.drop h.pfx.length), currentPrefix)
    | none => (.forwardDefault (getDefaultHandler reg) lookFor, currentPrefix)

/-! ## Markers tree: `MarkerTree` from
`packages/markers/src/browser/marker-tree.ts`. The tree primitives it calls
(`TreeImpl`, `CompositeTreeNode`) and the `MarkerManager` live in
`@theia/core` and `marker-manager.ts`, which are not among the sources; they
are modelled from the spec as noted on each definition. Presentation fields
produced by the label provider (label, icon, long name) are outside the
model. -/

/-- A marker: its owner URI and the diagnostic payload. -/
structure Marker (T : Type) where
  uri : Str
  data : T
deriving DecidableEq, Repr

/-- Modelled from the spec: `MarkerManager` (marker-manager.ts) is not among
the sources; the underlying marker store holds, per source-file URI, the
current list of markers. -/
abbrev MarkerStore (T : Type) := List (Str × List (Marker T))

/-- Modelled from the spec: `MarkerManager.findMarkers({ uri })` returns the
markers the store holds for that URI, in the store's order. -/
def findMarkers {T : Type} (store : MarkerStore T) (uri : Str) : List (Marker T) :=
  match store.find? (fun e => e.1 == uri) with
  | some e => e.2
  | none => []

/-- A per-diagnostic leaf node (`MarkerNode`). -/
structure MarkerNode (T : Type) where
  id : Str
  name : Str
  uri : Str
  selected : Bool
  marker : Marker T
deriving DecidableEq, Repr

/-- A per-file node (`MarkerInfoNode`), with its leaf children. -/
structure MarkerInfoNode (T : Type) where
  id : Str
  uri : Str
  expanded : Bool
  selected : Bool
  numberOfMarkers : Nat
  children : List (MarkerNode T)
deriving DecidableEq, Repr

/-- The tree state: the per-file nodes attached to the `MarkerRootNode`. -/
structure TreeState (T : Type) where
  rootChildren : List (MarkerInfoNode T)
deriving DecidableEq, Repr

/-- The leaf nodes currently in the tree's node map (`this.getNode(id)`
restricted to marker nodes: only leaves satisfy `MarkerNode.is`). -/
def getMarkerNode {T : Type} (state : TreeState T) (id : Str) :
    Option (MarkerNode T) :=
  ((state.rootChildren.map (fun n => n.children)).flatten).find? (fun m => m.id == id)

/-- `createMarkerInfo`: a fresh expanded per-file node with no children. -/
def createMarkerInfo {T : Type} (id uri : Str) : MarkerInfoNode T :=
  { id := id, uri := uri, expanded := true, selected := false,
    numberOfMarkers := 0, children := [] }

/-- `createMarkerNode`: reuse the leaf node with id `parent.id + '_' + index`
when the tree already holds one, updating its marker; otherwise build a
fresh leaf. -/
def createMarkerNode {T : Type} (state : TreeState T) (parent : MarkerInfoNode T)
    (marker : Marker T) (index : Nat) : MarkerNode T :=
  let id := parent.id ++ "_".data ++ (Nat.repr index).data
  match getMarkerNode state id with
  | some existing => { existing with marker := marker }
  | none =>
    { id := id, name := "marker".data, uri := parent.uri, selected := false,
      marker := marker }

/-- The recursion behind `markers.map((marker, index) => createMarkerNode ...)`,
carrying the running index. -/
def getMarkerNodesFrom {T : Type} (state : TreeState T) (parent : MarkerInfoNode T)
    (markers : List (Marker T)) (index : Nat) : List (MarkerNode T) :=
  match markers with
  | [] => []
  | m :: rest =>
    createMarkerNode state parent m index ::
      getMarkerNodesFrom state parent rest (index + 1)

/-- `getMarkerNodes`: one leaf node per marker, indexed from 0. -/
def getMarkerNodes {T : Type} (state : TreeState T) (parent : MarkerInfoNode T)
    (markers : List (Marker T)) : List (MarkerNode T) :=
  getMarkerNodesFrom state parent markers 0

/-- Modelled from the spec: `CompositeTreeNode.addChild` (in `@theia/core`)
is not among the sources; adding a child replaces the existing child with
the same id, keeping its position, or appends the new child. -/
def addChildRoot {T : Type} (children : List (MarkerInfoNode T))
    (child : MarkerInfoNode T) : List (MarkerInfoNode T) :=
  if children.any (fun n => n.id == child.id) then
    children.map (fun n => if n.id == child.id then child else n)
  else
    children ++ [child]

/-- `refreshMarkerInfo`: with no markers for the URI, drop the existing
per-file node (`removeChild` + `removeNode`); otherwise reuse or create the
per-file node, set its marker count and children, and attach it under the
root. In the source `addChild` runs before the count and children are
assigned, but it mutates the same object, so the final tree holds the
updated node. -/
def refreshMarkerInfo {T : Type} (store : MarkerStore T) (state : TreeState T)
    (uri : Str) : TreeState T :=
  let id := uri
  let existing := state.rootChildren.find? (fun n => n.id == id)
  let markers := findMarkers store uri
  if markers.length ≤ 0 then
    match existing with
    | some ex => ⟨state.rootChildren.filter (fun n => !(n.id == ex.id))⟩
    | none => state
  else
    let node := match existing with
      | some ex => ex
      | none => createMarkerInfo id uri
    let node := { node with numberOfMarkers := markers.length,
                            children := getMarkerNodes state node markers }
    ⟨addChildRoot state.rootChildren node⟩

/-! ## Node.js debug adapter: `NodeJsDebugAdapterContribution`
from `packages/debug-nodejs/src/node/debug-nodejs.ts`. -/

/-- A debug configuration, restricted to the fields `resolveDebugConfiguration`
reads or writes: `request`, `processId`, and the file patterns of the
`breakpoints` field it assigns. -/
structure DebugConfiguration where
  request : Option Str
  processId : Option Str
  breakpoints : Option (List Str)
deriving DecidableEq, Repr

/-- The file patterns assigned to `config.breakpoints`. -/
def nodeBreakpointFilePatterns : List Str := ["[.]js$".data, "[.]ts$".data]

/-- `validateAttachConfig`: throws when `config.processId` is falsy. -/
def validateAttachConfig (config : DebugConfiguration) : Except Str Unit :=
  if !truthyStr config.processId then
    .error "PID is not provided.".data
  else
    .ok ()

/-- `resolveDebugConfiguration`: assigns the breakpoint file patterns, throws
when `config.request` is falsy, runs `validateAttachConfig` when the request
is exactly `attach`, and otherwise returns the updated configuration. -/
def resolveDebugConfiguration (config : DebugConfiguration) :
    Except Str DebugConfiguration :=
  let config := { config with breakpoints := some nodeBreakpointFilePatterns }
  if !truthyStr config.request then
    .error "Debug request type is not provided.".data
  else if config.request == some "attach".data then
    match validateAttachConfig config with
    | .error e => .error e
    | .ok _ => .ok config
  else
    .ok config

/-! ## Preferences context menu: `PreferencesMenuFactory`
from `packages/preferences/src/browser/preferences-menu-factory.ts`. The
menu is embedded as the list of its items; each item records its label and
the value its command passes to the `execute` callback. Icon classes are
outside the model. -/

/-- One menu item: its label and the value submitted on execution. -/
structure MenuItem where
  label : Str
  value : Str
deriving DecidableEq, Repr

/-- The enum branch: walk the enum values, keeping the command registry's
id set; a value whose command id `id + '-' + value` is already registered
(`commands.hasCommand`) adds no item. -/
def enumMenuItems (id : Str) (registered : List Str) (vs : List Str) :
    List MenuItem :=
  match vs with
  | [] => []
  | v :: rest =>
    let commandId := id ++ "-".data ++ v
    if registered.contains commandId then
      enumMenuItems id registered rest
    else
      ⟨v, v⟩ :: enumMenuItems id (commandId :: registered) rest

/-- One preference key's schema, restricted to what the factory reads. -/
structure PreferenceProperty where
  type : Option Str
  enum : Option (List Str)
  default : Option Str
deriving DecidableEq, Repr

/-- `createPreferenceContextMenu`: no items for a null property; with an
enum (any array, even an empty one, is truthy) one item per enum value not
yet registered; for a boolean type the two items `true` and `false`;
otherwise a single `Add Value` item submitting the default when it is
truthy and the empty string otherwise. The `savedPreference` argument only
affects icon classes, which are outside the model. -/
def createPreferenceContextMenu (id : Str) (savedPreference : Option Str)
    (property : Option PreferenceProperty) : List MenuItem :=
  match property with
  | none => []
  | some p =>
    match p.enum with
    | some vs => enumMenuItems id [] vs
    | none =>
      if truthyStr p.type && (p.type == some "boolean".data) then
        [⟨"true".data, "true".data⟩, ⟨"false".data, "false".data⟩]
      else
        [⟨"Add Value".data,
          match p.default with
          | some d => if !d.isEmpty then d else []
          | none => []⟩]

/-! ## Editor decorators: `ActiveLineDecorator` and `BreakpointDecorator`
from `src/unnamed/part_001`, and the breakpoints widget from
`packages/debug/src/browser/view/debug-breakpoints-widget.ts`. The helpers
they call in `debug-utils.ts`, `breakpoint-marker.ts` and
`breakpoint-manager.ts` are not among the sources; they are modelled from
the spec as noted on each definition. Lines and columns are integers, as
JS numbers. -/

/-- A zero-based editor position (`Position.create(line, character)`). -/
structure DapPosition where
  line : Int
  character : Int
deriving DecidableEq, Repr

/-- An editor range (`Range.create(start, end)`); `endPos` embeds the
source's `end` field. -/
structure DapRange where
  start : DapPosition
  endPos : DapPosition
deriving DecidableEq, Repr

/-- The fields of a DAP stack frame that `ActiveLineDecorator.toRange`
reads: 1-based `line` and `column`, optional `endLine` and `endColumn`. -/
structure StackFrame where
  line : Int
  column : Int
  endLine : Option Int
  endColumn : Option Int
deriving DecidableEq, Repr

/-- `ActiveLineDecorator.toRange`: converts the frame's 1-based coordinates
to a 0-based range, guarding each optional field with JS truthiness. -/
def frameToRange (frame : StackFrame) : DapRange :=
  { start := { line := frame.line - 1,
               character := if truthyInt frame.endColumn then frame.column - 1 else 0 },
    endPos := { line := if truthyInt frame.endLine then frame.endLine.getD 0 - 1
                        else frame.line - 1,
                character := if truthyInt frame.endColumn then frame.endColumn.getD 0 - 1
                             else 0 } }

/-- Decoration options, restricted to the class names the decorators use. -/
structure EditorDecorationOptions where
  isWholeLine : Bool
  className : Option Str
  glyphMarginClassName : Option Str
deriving DecidableEq, Repr

/-- `InactiveBreakpointDecoration`. -/
def InactiveBreakpointDecoration : EditorDecorationOptions :=
  { isWholeLine := false, className := none,
    glyphMarginClassName := some "theia-debug-inactive-breakpoint".data }

/-- `ActiveBreakpointDecoration`. -/
def ActiveBreakpointDecoration : EditorDecorationOptions :=
  { isWholeLine := false, className := none,
    glyphMarginClassName := some "theia-debug-active-breakpoint".data }

/-- A DAP `SourceBreakpoint`: 1-based line, optional column. -/
structure SourceBreakpoint where
  line : Int
  column : Option Int
deriving DecidableEq, Repr

/-- The origin a stored breakpoint aggregates: a DAP source, function or
exception breakpoint. -/
inductive BreakpointOrigin where
  | source (b : SourceBreakpoint)
  | function (name : Str)
  | exceptionBp (filter : Str)
deriving DecidableEq, Repr

/-- The `created` response attached to a breakpoint, restricted to its
`verified` flag. -/
structure CreatedBreakpoint where
  verified : Bool
deriving DecidableEq, Repr

/-- A stored aggregated breakpoint: the URI of its source, its origin, and
the optional `created` response. -/
structure AggregatedBreakpoint where
  uri : Str
  origin : BreakpointOrigin
  created : Option CreatedBreakpoint
deriving DecidableEq, Repr

/-- Modelled from the spec: `DebugUtils.isSourceBreakpoint` (debug-utils.ts)
is not among the sources; a breakpoint is a source breakpoint when its
origin is a DAP `SourceBreakpoint`. -/
def isSourceBreakpoint (b : AggregatedBreakpoint) : Bool :=
  match b.origin with
  | .source _ => true
  | _ => false

/-- Modelled from the spec: `DebugUtils.checkUri` (debug-utils.ts) is not
among the sources; it holds when the breakpoint's URI matches the given
editor URI. -/
def checkUri (b : AggregatedBreakpoint) (uri : Str) : Bool :=
  b.uri == uri

/-- Modelled from the spec: `BreakpointStorage.get` (breakpoint-marker.ts)
is not among the sources; it returns the stored breakpoints satisfying the
given predicate, in storage order. -/
def storageGet (storage : List AggregatedBreakpoint)
    (pred : AggregatedBreakpoint → Bool) : List AggregatedBreakpoint :=
  storage.filter pred

/-- The `b.origin as DebugProtocol.SourceBreakpoint` cast: only breakpoints
that passed `isSourceBreakpoint` reach it; other origins map to a junk
value. -/
def asSourceBreakpoint (origin : BreakpointOrigin) : SourceBreakpoint :=
  match origin with
  | .source b => b
  | _ => { line := 0, column := none }

/-- `!!b.created && !!b.created.verified`: the created response is present
and verified. -/
def createdVerified (b : AggregatedBreakpoint) : Bool :=
  match b.created with
  | some c => c.verified
  | none => false

/-- An editor decoration instruction. -/
structure EditorDecoration where
  range : DapRange
  options : EditorDecorationOptions
deriving DecidableEq, Repr

/-- `BreakpointDecorator.toRange`: a zero-length range at the breakpoint's
0-based line, column 0. -/
def breakpointToRange (b : SourceBreakpoint) : DapRange :=
  { start := { line := b.line - 1, character := 0 },
    endPos := { line := b.line - 1, character := 0 } }

/-- The decorations `BreakpointDecorator.applyDecorations` sets on one
editor: the stored source breakpoints whose URI matches the editor's URI,
each at its 0-based line with the active decoration when its created
response is verified and the inactive decoration otherwise. -/
def bpApplyDecorations (storage : List AggregatedBreakpoint) (editorUri : Str) :
    List EditorDecoration :=
  ((storageGet storage isSourceBreakpoint).filter (fun b => checkUri b editorUri)).map
    (fun b =>
      { range := breakpointToRange (asSourceBreakpoint b.origin),
        options := if createdVerified b then ActiveBreakpointDecoration
                   else InactiveBreakpointDecoration })

/-- Modelled from the spec: `BreakpointsManager` (breakpoint-manager.ts) is
not among the sources; it stores, per debug session id, the aggregated
breakpoints of that session. -/
structure BreakpointsManager where
  sessions : List (Str × List AggregatedBreakpoint)
deriving DecidableEq, Repr

/-- Modelled from the spec: `breakpointManager.get(sessionId)` returns the
breakpoints of one session. -/
def managerGet (mgr : BreakpointsManager) (sessionId : Str) :
    List AggregatedBreakpoint :=
  match mgr.sessions.find? (fun e => e.1 == sessionId) with
  | some e => e.2
  | none => []

/-- Modelled from the spec: `breakpointManager.getAll()` returns the
breakpoints of all sessions. -/
def managerGetAll (mgr : BreakpointsManager) : List AggregatedBreakpoint :=
  (mgr.sessions.map (fun e => e.2)).flatten

/-- `this.breakpoints.sort()`: `Array.prototype.sort` with no comparator
compares string coercions; breakpoint objects all coerce to the same
string, and the sort is stable, so the list is unchanged. -/
def jsDefaultSortObjects (l : List AggregatedBreakpoint) :
    List AggregatedBreakpoint := l

/-- `DebugBreakpointsWidget.refreshBreakpoints`: the widget's new breakpoint
list, from its session when it was constructed with one and from all
sessions otherwise. -/
def refreshBreakpoints (mgr : BreakpointsManager) (debugSession : Option Str) :
    List AggregatedBreakpoint :=
  jsDefaultSortObjects
    (match debugSession with
     | some sessionId => managerGet mgr sessionId
     | none => managerGetAll mgr)

end Theia

namespace Theia

theorem truthyStr_eq_false_iff (s : Option Str) :
    truthyStr s = false ↔ s = none ∨ s = some [] := by
  cases s with
  | none => simp [truthyStr]
  | some l => cases l <;> simp [truthyStr, List.isEmpty]

theorem isPrefixOf_append_drop {p t : Str} (h : p.isPrefixOf t = true) :
    p ++ t.drop p.length = t := by
  rw [List.isPrefixOf_iff_prefix] at h
  obtain ⟨s, rfl⟩ := h
  simp

/-- C1: if `getHandlerForText` finds a handler for the typed text and that
handler's prefix equals the service's current prefix, then `onType` forwards
exactly the remainder of the text (the text with the handler's prefix
removed) to that handler's model, leaving the current prefix unchanged. -/
theorem onType_forwards_remainder_to_matching_handler
    (reg : QuickOpenHandlerRegistry) (cur : Option Str) (text : Str)
    (h : QuickOpenHandler)
    (hfind : getHandlerForText reg text = some h)
    (hcur : cur = some h.pfx) :
    onType reg cur text = (.forward h (text.drop h.pfx.length), cur) ∧
      h.pfx ++ text.drop h.pfx.length = text := by
  constructor
  · simp only [onType, hfind, hcur]
    simp
  · have hp : h.pfx.isPrefixOf text = true := by
      have := List.find?_some hfind
      exact this
    exact isPrefixOf_append_drop hp

theorem onType_forwards_remainder_to_matching_handler_witness :
    onType ⟨[⟨['>'], 0⟩], none⟩ (some ['>']) ['>', 'a'] =
      (.forward ⟨['>'], 0⟩ ['a'], some ['>']) ∧
      getHandlerForText ⟨[⟨['>'], 0⟩], none⟩ ['>', 'a'] = some ⟨['>'], 0⟩ := by
  refine ⟨?_, by decide⟩
  have := onType_forwards_remainder_to_matching_handler
    ⟨[⟨['>'], 0⟩], none⟩ (some ['>']) ['>', 'a'] ⟨['>'], 0⟩ (by decide) rfl
  exact this.1

/-- C2: if no registered handler's prefix starts the typed text and the
service's current prefix is already the empty string, `onType` forwards the
full, unmodified text to the default handler's model. -/
theorem onType_falls_back_to_default_handler
    (reg : QuickOpenHandlerRegistry) (text : Str)
    (hnone : ∀ h ∈ reg.handlers, h.pfx.isPrefixOf text = false) :
    onType reg (some []) text =
      (.forwardDefault (getDefaultHandler reg) text, some []) := by
  have hfind : getHandlerForText reg text = none :=
    List.find?_eq_none.mpr (fun h hh => by simp [hnone h hh])
  simp only [onType, hfind]
  simp

theorem onType_falls_back_to_default_handler_witness :
    onType ⟨[⟨['>'], 0⟩], some ⟨[], 1⟩⟩ (some []) ['a', 'b'] =
      (.forwardDefault (some ⟨[], 1⟩) ['a', 'b'], some []) := by
  have := onType_falls_back_to_default_handler ⟨[⟨['>'], 0⟩], some ⟨[], 1⟩⟩
    ['a', 'b'] (by decide)
  simpa [getDefaultHandler] using this

/-- C5: the registry keeps at most one handler per prefix. Registering a
handler whose prefix is already present returns the null disposable and
leaves the handler map unchanged, and distinctness of the registered
prefixes is preserved by `registerHandler`, by `registerDefaultHandler`
and by disposing a registration. -/
theorem registerHandler_duplicate_null_and_nodup_preserved
    (reg : QuickOpenHandlerRegistry) (h hd : QuickOpenHandler) (p : Str) :
    (hasHandler reg h.pfx = true → registerHandler reg h = (reg, false)) ∧
    ((reg.handlers.map (fun x => x.pfx)).Nodup →
      (((registerHandler reg h).1.handlers.map (fun x => x.pfx)).Nodup ∧
       ((registerDefaultHandler reg hd).handlers.map (fun x => x.pfx)).Nodup ∧
       ((disposeHandlerRegistration reg p).handlers.map (fun x => x.pfx)).Nodup)) := by
  constructor
  · intro hdup
    simp [registerHandler, hdup]
  · intro hnd
    refine ⟨?_, ?_, ?_⟩
    · by_cases hdup : hasHandler reg h.pfx
      · simpa [registerHandler, hdup] using hnd
      · simp only [registerHandler, hdup, if_neg, Bool.false_eq_true,
          not_false_eq_true, if_false]
        simp only [List.map_append, List.map_cons, List.map_nil]
        rw [List.nodup_append]
        refine ⟨hnd, List.nodup_singleton _, ?_⟩
        intro a ha hb
        simp only [List.mem_singleton] at hb
        subst hb
        simp only [hasHandler, List.any_eq_true, not_exists, not_and,
          Bool.not_eq_true] at hdup
        simp only [List.mem_map] at ha
        obtain ⟨x, hx, hxa⟩ := ha
        have := hdup x hx
        simp [hxa] at this
    · simpa [registerDefaultHandler] using hnd
    · exact hnd.sublist ((List.filter_sublist _).map _)

theorem registerHandler_duplicate_null_and_nodup_preserved_witness :
    hasHandler ⟨[⟨['>'], 0⟩], none⟩ (QuickOpenHandler.mk ['>'] 1).pfx = true ∧
    registerHandler ⟨[⟨['>'], 0⟩], none⟩ ⟨['>'], 1⟩ = (⟨[⟨['>'], 0⟩], none⟩, false) := by
  refine ⟨by decide, ?_⟩
  exact (registerHandler_duplicate_null_and_nodup_preserved
    ⟨[⟨['>'], 0⟩], none⟩ ⟨['>'], 1⟩ ⟨[], 2⟩ []).1 (by decide)

/-- C9: the older registry's `getHandlerByText` and the newer registry's
`getHandlerForText` agree on every registry state and every text. -/
theorem getHandlerByText_eq_getHandlerForText
    (reg : QuickOpenHandlerRegistry) (text : Str) :
    getHandlerByText reg text = getHandlerForText reg text := rfl

/-- C4 counterexample: a configuration whose `request` field is present (the
empty string) and not `attach` is rejected by `resolveDebugConfiguration`,
although the claim predicts it is returned with the breakpoint patterns set. -/
theorem resolveDebugConfiguration_rejects_present_empty_request :
    (DebugConfiguration.mk (some []) (some ['1']) none).request ≠ none ∧
    (DebugConfiguration.mk (some []) (some ['1']) none).request ≠ some "attach".data ∧
    resolveDebugConfiguration (DebugConfiguration.mk (some []) (some ['1']) none) =
      .error "Debug request type is not provided.".data :=
  ⟨by decide, by decide, rfl⟩

/-- C4 (amended): `resolveDebugConfiguration` fails exactly when the request
field is absent or empty, or the request equals `attach` and the processId
field is absent or empty; in every other case it returns the input
configuration with its breakpoints field set to `['[.]js$', '[.]ts$']`. -/
theorem resolveDebugConfiguration_error_iff (config : DebugConfiguration) :
    ((∃ msg, resolveDebugConfiguration config = .error msg) ↔
      ((config.request = none ∨ config.request = some []) ∨
        (config.request = some "attach".data ∧
          (config.processId = none ∨ config.processId = some [])))) ∧
    ((config.request ≠ none ∧ config.request ≠ some [] ∧
        (config.request = some "attach".data →
          (config.processId ≠ none ∧ config.processId ≠ some []))) →
      resolveDebugConfiguration config =
        .ok { config with breakpoints := some nodeBreakpointFilePatterns }) := by
  have hreq : truthyStr config.request = false ↔
      (config.request = none ∨ config.request = some []) :=
    truthyStr_eq_false_iff _
  have hpid : truthyStr config.processId = false ↔
      (config.processId = none ∨ config.processId = some []) :=
    truthyStr_eq_false_iff _
  have hres : resolveDebugConfiguration config =
      if truthyStr config.request = false then
        Except.error "Debug request type is not provided.".data
      else if config.request = some "attach".data ∧ truthyStr config.processId = false then
        Except.error "PID is not provided.".data
      else
        Except.ok { config with breakpoints := some nodeBreakpointFilePatterns } := by
    simp only [resolveDebugConfiguration, validateAttachConfig]
    by_cases hr : truthyStr config.request <;>
      by_cases ha : config.request = some "attach".data <;>
        by_cases hp : truthyStr config.processId <;>
          simp [hr, ha, hp]
  rw [hres]
  split_ifs with h1 h2
  · refine ⟨⟨fun _ => Or.inl (hreq.mp h1), fun _ => ⟨_, rfl⟩⟩, ?_⟩
    rintro ⟨a1, a2, -⟩
    rcases hreq.mp h1 with h0 | h0
    · exact absurd h0 a1
    · exact absurd h0 a2
  · refine ⟨⟨fun _ => Or.inr ⟨h2.1, hpid.mp h2.2⟩, fun _ => ⟨_, rfl⟩⟩, ?_⟩
    rintro ⟨-, -, himp⟩
    rcases hpid.mp h2.2 with h0 | h0
    · exact absurd h0 (himp h2.1).1
    · exact absurd h0 (himp h2.1).2
  · constructor
    · constructor
      · rintro ⟨msg, hmsg⟩
        exact absurd hmsg (by simp)
      · rintro (hbad | ⟨hatt, hbad⟩)
        · exact absurd (hreq.mpr hbad) h1
        · exact (h2 ⟨hatt, hpid.mpr hbad⟩).elim
    · intro _
      rfl

theorem mem_map_label_enumMenuItems (id : Str) (vs : List Str) :
    ∀ (registered : List Str) (w : Str),
      (w ∈ (enumMenuItems id registered vs).map (fun it => it.label) ↔
        (w ∈ vs ∧ (id ++ "-".data ++ w) ∉ registered)) := by
  induction vs with
  | nil => intro registered w; simp [enumMenuItems]
  | cons v rest ih =>
    intro registered w
    rw [enumMenuItems]
    by_cases hc : registered.contains (id ++ "-".data ++ v)
    · rw [if_pos hc]
      rw [ih]
      have hv : (id ++ "-".data ++ v) ∈ registered := by simpa using hc
      constructor
      · rintro ⟨hw, hnot⟩
        exact ⟨List.mem_cons_of_mem _ hw, hnot⟩
      · rintro ⟨hw, hnot⟩
        rcases List.mem_cons.mp hw with rfl | hw
        · exact absurd hv hnot
        · exact ⟨hw, hnot⟩
    · rw [if_neg hc]
      have hv : (id ++ "-".data ++ v) ∉ registered := by simpa using hc
      simp only [List.map_cons, List.mem_cons, ih]
      constructor
      · rintro (rfl | ⟨hw, hnot⟩)
        · exact ⟨Or.inl rfl, hv⟩
        · push_neg at hnot
          exact ⟨Or.inr hw, hnot.2⟩
      · rintro ⟨hw, hnot⟩
        by_cases hwv : w = v
        · exact Or.inl hwv
        · have hw' : w ∈ rest := by
            rcases hw with h | h
            · exact absurd h hwv
            · exact h
          refine Or.inr ⟨hw', ?_⟩
          push_neg
          exact ⟨fun heq => hwv (List.append_cancel_left heq), hnot⟩

theorem nodup_map_label_enumMenuItems (id : Str) (vs : List Str) :
    ∀ registered : List Str,
      ((enumMenuItems id registered vs).map (fun it => it.label)).Nodup := by
  induction vs with
  | nil => intro registered; simp [enumMenuItems]
  | cons v rest ih =>
    intro registered
    rw [enumMenuItems]
    by_cases hc : registered.contains (id ++ "-".data ++ v)
    · rw [if_pos hc]; exact ih _
    · rw [if_neg hc]
      simp only [List.map_cons, List.nodup_cons]
      refine ⟨?_, ih _⟩
      intro hmem
      rw [mem_map_label_enumMenuItems] at hmem
      exact hmem.2 (List.mem_cons_self _ _)

theorem enumMenuItems_value_eq_label (id : Str) (vs : List Str) :
    ∀ registered : List Str, ∀ it ∈ enumMenuItems id registered vs,
      it.value = it.label := by
  induction vs with
  | nil => intro registered it h; simp [enumMenuItems] at h
  | cons v rest ih =>
    intro registered it hit
    rw [enumMenuItems] at hit
    by_cases hc : registered.contains (id ++ "-".data ++ v)
    · rw [if_pos hc] at hit
      exact ih _ it hit
    · rw [if_neg hc] at hit
      rcases List.mem_cons.mp hit with rfl | h
      · rfl
      · exact ih _ it h

/-- C6: for a non-null property schema the menu is determined by the schema.
With an enum, the item labels are exactly the distinct enum values, each
item submitting its label; with no enum and boolean type, exactly the two
items `true` and `false`; otherwise a single `Add Value` item submitting
the property's default value when it is a truthy string and the empty
string otherwise. -/
theorem createPreferenceContextMenu_cases (id : Str) (saved : Option Str)
    (p : PreferenceProperty) :
    (∀ vs, p.enum = some vs →
      (((createPreferenceContextMenu id saved (some p)).map
          (fun it => it.label)).Nodup ∧
       (∀ w, w ∈ (createPreferenceContextMenu id saved (some p)).map
          (fun it => it.label) ↔ w ∈ vs) ∧
       (∀ it ∈ createPreferenceContextMenu id saved (some p),
          it.value = it.label))) ∧
    (p.enum = none → p.type = some "boolean".data →
      createPreferenceContextMenu id saved (some p) =
        [⟨"true".data, "true".data⟩, ⟨"false".data, "false".data⟩]) ∧
    (p.enum = none → p.type ≠ some "boolean".data →
      ∃ v, createPreferenceContextMenu id saved (some p) =
          [⟨"Add Value".data, v⟩] ∧
        ((truthyStr p.default = true ∧ p.default = some v) ∨
         (truthyStr p.default = false ∧ v = []))) := by
  refine ⟨?_, ?_, ?_⟩
  · intro vs hvs
    simp only [createPreferenceContextMenu, hvs]
    refine ⟨nodup_map_label_enumMenuItems _ _ _, ?_, ?_⟩
    · intro w
      rw [mem_map_label_enumMenuItems]
      simp
    · exact enumMenuItems_value_eq_label _ _ _
  · intro henum htype
    simp only [createPreferenceContextMenu, henum, htype]
    rw [if_pos (by decide)]
  · intro henum htype
    have hfalse : (truthyStr p.type && (p.type == some "boolean".data)) = false := by
      have : (p.type == some "boolean".data) = false := by
        simpa using htype
      simp [this]
    simp only [createPreferenceContextMenu, henum, hfalse, Bool.false_eq_true,
      if_false]
    cases hd : p.default with
    | none => exact ⟨[], rfl, Or.inr ⟨rfl, rfl⟩⟩
    | some d =>
      cases d with
      | nil => exact ⟨[], rfl, Or.inr ⟨rfl, rfl⟩⟩
      | cons c cs =>
        refine ⟨c :: cs, rfl, Or.inl ⟨rfl, rfl⟩⟩

theorem createPreferenceContextMenu_cases_witness :
    ((createPreferenceContextMenu ['i'] none
        (some ⟨none, some [['a'], ['b'], ['a']], none⟩)).map
      (fun it => it.label)).Nodup ∧
    createPreferenceContextMenu ['i'] none
        (some ⟨some "boolean".data, none, none⟩) =
      [⟨"true".data, "true".data⟩, ⟨"false".data, "false".data⟩] := by
  constructor
  · exact ((createPreferenceContextMenu_cases ['i'] none
      ⟨none, some [['a'], ['b'], ['a']], none⟩).1 [['a'], ['b'], ['a']] rfl).1
  · exact (createPreferenceContextMenu_cases ['i'] none
      ⟨some "boolean".data, none, none⟩).2.1 rfl rfl

theorem createMarkerNode_marker {T : Type} (state : TreeState T)
    (parent : MarkerInfoNode T) (m : Marker T) (i : Nat) :
    (createMarkerNode state parent m i).marker = m := by
  unfold createMarkerNode
  dsimp only
  split <;> rfl

theorem getMarkerNodesFrom_map_marker {T : Type} (state : TreeState T)
    (parent : MarkerInfoNode T) (markers : List (Marker T)) (i : Nat) :
    (getMarkerNodesFrom state parent markers i).map (fun n => n.marker) = markers := by
  induction markers generalizing i with
  | nil => rfl
  | cons m rest ih =>
    simp only [getMarkerNodesFrom, List.map_cons, createMarkerNode_marker, ih]

theorem mem_addChildRoot {T : Type} (children : List (MarkerInfoNode T))
    (child : MarkerInfoNode T) : child ∈ addChildRoot children child := by
  unfold addChildRoot
  split
  · next hany =>
    simp only [List.any_eq_true] at hany
    obtain ⟨x, hx, hxid⟩ := hany
    rw [List.mem_map]
    exact ⟨x, hx, by simp [hxid]⟩
  · simp

/-- C3: after `refreshMarkerInfo store state uri`, in a tree whose per-file
nodes carry their URI as id: if the store holds no markers for the URI, no
per-file node for that URI remains under the root; otherwise the root holds
a per-file node for that URI whose `numberOfMarkers` equals the number of
markers the store holds for the URI and whose children carry exactly those
markers, one leaf per marker, in the store's order. -/
theorem refreshMarkerInfo_syncs_tree {T : Type}
    (store : MarkerStore T) (state : TreeState T) (uri : Str)
    (huri : ∀ n ∈ state.rootChildren, n.id = n.uri) :
    (findMarkers store uri = [] →
      ∀ n ∈ (refreshMarkerInfo store state uri).rootChildren, n.id ≠ uri) ∧
    (findMarkers store uri ≠ [] →
      ∃ n ∈ (refreshMarkerInfo store state uri).rootChildren,
        n.id = uri ∧ n.uri = uri ∧
        n.numberOfMarkers = (findMarkers store uri).length ∧
        n.children.map (fun c => c.marker) = findMarkers store uri) := by
  constructor
  · intro hempty n hn
    unfold refreshMarkerInfo at hn
    rw [hempty] at hn
    simp only [List.length_nil, Nat.le_refl, if_true] at hn
    cases hex : state.rootChildren.find? (fun n => n.id == uri) with
    | none =>
      rw [hex] at hn
      have := List.find?_eq_none.mp hex n hn
      simpa using this
    | some ex =>
      rw [hex] at hn
      simp only [List.mem_filter, Bool.not_eq_eq_eq_not, Bool.not_true,
        beq_eq_false_iff_ne, ne_eq] at hn
      have hexid : ex.id = uri := by
        have := List.find?_some hex
        simpa using this
      rw [hexid] at hn
      exact hn.2
  · intro hne
    have hlen : ¬((findMarkers store uri).length ≤ 0) := by
      cases h : findMarkers store uri with
      | nil => exact absurd h hne
      | cons a l => simp [h]
    unfold refreshMarkerInfo
    rw [if_neg hlen]
    cases hex : state.rootChildren.find? (fun n => n.id == uri) with
    | some ex =>
      have hexid : ex.id = uri := by
        have := List.find?_some hex
        simpa using this
      have hexuri : ex.uri = uri := by
        rw [← hexid]
        exact (huri ex (List.mem_of_find?_eq_some hex)).symm
      refine ⟨_, mem_addChildRoot _ _, ?_, ?_, rfl, ?_⟩
      · exact hexid
      · exact hexuri
      · exact getMarkerNodesFrom_map_marker _ _ _ 0
    | none =>
      refine ⟨_, mem_addChildRoot _ _, rfl, rfl, rfl, ?_⟩
      exact getMarkerNodesFrom_map_marker _ _ _ 0

theorem refreshMarkerInfo_syncs_tree_witness :
    (∀ n ∈ (⟨[]⟩ : TreeState Nat).rootChildren, n.id = n.uri) ∧
    findMarkers [(['u'], [Marker.mk ['u'] 7])] ['u'] ≠ [] ∧
    ∃ n ∈ (refreshMarkerInfo [(['u'], [Marker.mk ['u'] 7])]
        (⟨[]⟩ : TreeState Nat) ['u']).rootChildren,
      n.id = ['u'] ∧ n.uri = ['u'] ∧
      n.numberOfMarkers = (findMarkers [(['u'], [Marker.mk ['u'] 7])] ['u']).length ∧
      n.children.map (fun c => c.marker) = findMarkers [(['u'], [Marker.mk ['u'] 7])] ['u'] := by
  refine ⟨by decide, by decide, ?_⟩
  exact (refreshMarkerInfo_syncs_tree [(['u'], [Marker.mk ['u'] 7])]
    (⟨[]⟩ : TreeState Nat) ['u'] (by decide)).2 (by decide)

theorem createdVerified_iff (b : AggregatedBreakpoint) :
    createdVerified b = true ↔ ∃ c, b.created = some c ∧ c.verified = true := by
  cases hc : b.created with
  | none => simp [createdVerified, hc]
  | some c => simp [createdVerified, hc]

/-- C7: on an editor, `BreakpointDecorator.applyDecorations` sets one
decoration per stored source breakpoint whose URI matches the editor's URI,
at the breakpoint's 0-based line and column 0, with the active-breakpoint
decoration exactly when the breakpoint's created response is verified, and
the inactive-breakpoint decoration otherwise. -/
theorem bpApplyDecorations_per_matching_breakpoint
    (storage : List AggregatedBreakpoint) (uri : Str) :
    (bpApplyDecorations storage uri).length =
      ((storageGet storage isSourceBreakpoint).filter
        (fun b => checkUri b uri)).length ∧
    ∀ (i : Nat) (d : EditorDecoration) (b : AggregatedBreakpoint),
      (bpApplyDecorations storage uri)[i]? = some d →
      ((storageGet storage isSourceBreakpoint).filter
        (fun b => checkUri b uri))[i]? = some b →
      ∃ s, b.origin = .source s ∧
        d.range = ⟨⟨s.line - 1, 0⟩, ⟨s.line - 1, 0⟩⟩ ∧
        (d.options = ActiveBreakpointDecoration ↔
          ∃ c, b.created = some c ∧ c.verified = true) ∧
        (d.options = InactiveBreakpointDecoration ↔
          ¬∃ c, b.created = some c ∧ c.verified = true) := by
  constructor
  · simp [bpApplyDecorations]
  · intro i d b hd hb
    simp only [bpApplyDecorations, List.getElem?_map, hb, Option.map_some] at hd
    have hbmem : b ∈ (storageGet storage isSourceBreakpoint).filter
        (fun b => checkUri b uri) := List.getElem?_mem hb
    have hsrc : isSourceBreakpoint b = true := by
      have h1 := (List.mem_filter.mp hbmem).1
      unfold storageGet at h1
      exact (List.mem_filter.mp h1).2
    have hsx : ∃ s, b.origin = .source s := by
      cases ho : b.origin with
      | source sb => exact ⟨sb, rfl⟩
      | function nm => simp [isSourceBreakpoint, ho] at hsrc
      | exceptionBp f => simp [isSourceBreakpoint, ho] at hsrc
    obtain ⟨s, hs⟩ := hsx
    have hd' : d =
        { range := breakpointToRange (asSourceBreakpoint b.origin),
          options := if createdVerified b then ActiveBreakpointDecoration
                     else InactiveBreakpointDecoration } := by
      exact (Option.some.injEq _ _).mp hd.symm
    refine ⟨s, hs, ?_, ?_, ?_⟩
    · rw [hd', hs]
      rfl
    · rw [hd', ← createdVerified_iff]
      by_cases hv : createdVerified b
      · simp [hv]
      · simp only [hv, Bool.false_eq_true, if_false]
        simp only [Bool.not_eq_true] at hv
        simp only [hv, Bool.false_eq_true, iff_false]
        intro hcontra
        exact absurd (congrArg (fun o => o.glyphMarginClassName) hcontra) (by decide)
    · rw [hd', ← createdVerified_iff]
      by_cases hv : createdVerified b
      · simp only [hv, if_true, hv, iff_false, not_true, Decidable.not_not]
        decide
      · simp only [hv, Bool.false_eq_true, if_false]
        simp only [Bool.not_eq_true] at hv
        simp [hv]

theorem bpApplyDecorations_per_matching_breakpoint_witness :
    (bpApplyDecorations
        [⟨['u'], .source ⟨5, none⟩, some ⟨true⟩⟩] ['u'])[0]? =
      some ⟨⟨⟨4, 0⟩, ⟨4, 0⟩⟩, ActiveBreakpointDecoration⟩ ∧
    ∃ s, (AggregatedBreakpoint.mk ['u'] (.source ⟨5, none⟩) (some ⟨true⟩)).origin
          = .source s ∧
      (EditorDecoration.mk ⟨⟨4, 0⟩, ⟨4, 0⟩⟩ ActiveBreakpointDecoration).range =
        ⟨⟨s.line - 1, 0⟩, ⟨s.line - 1, 0⟩⟩ ∧
      ((EditorDecoration.mk ⟨⟨4, 0⟩, ⟨4, 0⟩⟩ ActiveBreakpointDecoration).options =
          ActiveBreakpointDecoration ↔
        ∃ c, (AggregatedBreakpoint.mk ['u'] (.source ⟨5, none⟩)
          (some ⟨true⟩)).created = some c ∧ c.verified = true) ∧
      ((EditorDecoration.mk ⟨⟨4, 0⟩, ⟨4, 0⟩⟩ ActiveBreakpointDecoration).options =
          InactiveBreakpointDecoration ↔
        ¬∃ c, (AggregatedBreakpoint.mk ['u'] (.source ⟨5, none⟩)
          (some ⟨true⟩)).created = some c ∧ c.verified = true) := by
  refine ⟨by decide, ?_⟩
  exact (bpApplyDecorations_per_matching_breakpoint
    [⟨['u'], .source ⟨5, none⟩, some ⟨true⟩⟩] ['u']).2 0
    ⟨⟨⟨4, 0⟩, ⟨4, 0⟩⟩, ActiveBreakpointDecoration⟩
    ⟨['u'], .source ⟨5, none⟩, some ⟨true⟩⟩ (by decide) (by decide)

/-- C8: `refreshBreakpoints` replaces the widget's breakpoint list with its
session's breakpoints when the widget was constructed with a debug session,
and with the breakpoints of all sessions when it was constructed without
one. -/
theorem refreshBreakpoints_list_source (mgr : BreakpointsManager)
    (sessionId : Str) :
    refreshBreakpoints mgr (some sessionId) = managerGet mgr sessionId ∧
    refreshBreakpoints mgr none = managerGetAll mgr :=
  ⟨rfl, rfl⟩

/-- C10 counterexample: a stack frame whose `endColumn` is present but 0:
the claim predicts start column `column - 1 = 4`, but `toRange` yields 0,
because the code guards on JS truthiness and 0 is falsy. -/
theorem frameToRange_present_zero_endColumn :
    (StackFrame.mk 3 5 none (some 0)).endColumn ≠ none ∧
    (frameToRange (StackFrame.mk 3 5 none (some 0))).start.character = 0 ∧
    (StackFrame.mk 3 5 none (some 0)).column - 1 = 4 := by decide

/-- C10 (amended): `toRange` converts the frame's 1-based coordinates to a
0-based range: start line is `line - 1`; start column is `column - 1` when
`endColumn` is present and nonzero and 0 otherwise; end line is
`endLine - 1` when `endLine` is present and nonzero and `line - 1`
otherwise; end column is `endColumn - 1` when `endColumn` is present and
nonzero and 0 otherwise. -/
theorem frameToRange_cases (frame : StackFrame) :
    (frameToRange frame).start.line = frame.line - 1 ∧
    (∀ ec, frame.endColumn = some ec → ec ≠ 0 →
      (frameToRange frame).start.character = frame.column - 1 ∧
      (frameToRange frame).endPos.character = ec - 1) ∧
    ((frame.endColumn = none ∨ frame.endColumn = some 0) →
      (frameToRange frame).start.character = 0 ∧
      (frameToRange frame).endPos.character = 0) ∧
    (∀ el, frame.endLine = some el → el ≠ 0 →
      (frameToRange frame).endPos.line = el - 1) ∧
    ((frame.endLine = none ∨ frame.endLine = some 0) →
      (frameToRange frame).endPos.line = frame.line - 1) := by
  refine ⟨rfl, ?_, ?_, ?_, ?_⟩
  · intro ec hec hne
    have ht : truthyInt frame.endColumn = true := by simp [truthyInt, hec, hne]
    constructor
    · show (if truthyInt frame.endColumn then frame.column - 1 else 0) = _
      rw [ht]
      simp
    · show (if truthyInt frame.endColumn then frame.endColumn.getD 0 - 1 else 0) = _
      rw [ht, hec]
      simp
  · intro h
    have ht : truthyInt frame.endColumn = false := by
      rcases h with h | h <;> simp [truthyInt, h]
    constructor
    · show (if truthyInt frame.endColumn then frame.column - 1 else 0) = 0
      rw [ht]
      simp
    · show (if truthyInt frame.endColumn then frame.endColumn.getD 0 - 1 else 0) = 0
      rw [ht]
      simp
  · intro el hel hne
    have ht : truthyInt frame.endLine = true := by simp [truthyInt, hel, hne]
    show (if truthyInt frame.endLine then frame.endLine.getD 0 - 1 else frame.line - 1) = _
    rw [ht, hel]
    simp
  · intro h
    have ht : truthyInt frame.endLine = false := by
      rcases h with h | h <;> simp [truthyInt, h]
    show (if truthyInt frame.endLine then frame.endLine.getD 0 - 1 else frame.line - 1) = _
    rw [ht]
    simp

theorem frameToRange_cases_witness :
    (frameToRange (StackFrame.mk 3 5 (some 7) (some 9))).start.line = 2 ∧
    (frameToRange (StackFrame.mk 3 5 (some 7) (some 9))).start.character = 4 ∧
    (frameToRange (StackFrame.mk 3 5 (some 7) (some 9))).endPos.line = 6 ∧
    (frameToRange (StackFrame.mk 3 5 (some 7) (some 9))).endPos.character = 8 := by
  have h := frameToRange_cases (StackFrame.mk 3 5 (some 7) (some 9))
  refine ⟨h.1.trans (by decide), ?_, ?_, ?_⟩
  · exact ((h.2.1 9 rfl (by decide)).1).trans (by decide)
  · exact (h.2.2.2.1 7 rfl (by decide)).trans (by decide)
  · exact ((h.2.1 9 rfl (by decide)).2).trans (by decide)

theorem resolveDebugConfiguration_error_iff_witness :
    resolveDebugConfiguration (DebugConfiguration.mk (some "launch".data) none none) =
      .ok (DebugConfiguration.mk (some "launch".data) none
        (some nodeBreakpointFilePatterns)) :=
  (resolveDebugConfiguration_error_iff
    (DebugConfiguration.mk (some "launch".data) none none)).2
    ⟨by decide, by decide, by intro h; exact absurd h (by decide)⟩

end Theia
